import Mathlib

/-!
Shallow embedding of the event-service core (Go repository `event-service`):
the event data model (`pkg/event` model), the storage adapter
(`EventRepository`: `FindActive`, `Create`, `Finish`, `List`), the lifecycle
service (`EventService`: `Start`, `Finish`, `List`) and the request
validation of the HTTP handlers (`validateEventType`, pagination parsing in
`EventHandler.List`).

Modelling conventions:
* MongoDB documents of the `events` collection are a `List Event` in
  insertion (natural) order; `FindOne` / `FindOneAndUpdate` without a sort
  option act on the first matching document in natural order.
* Mongo-assigned `ObjectID`s are modelled by a `Nat` counter `nextId` in the
  store; ids are never reused.
* Timestamps (`time.Time`) are `Nat`; `time.Now()` becomes an explicit
  `now : Nat` argument of the operations that call it.
* Go's `*Event, error` results where the only interesting error is
  `mongo.ErrNoDocuments` become `Option`; absence of a storage failure path
  in the model mirrors the fact that the service layer propagates every
  other error unchanged.
-/

/-- Event state from the model file: `Active = 0`, `Finished = 1`. -/
inductive State where
  | Active : State
  | Finished : State
deriving DecidableEq

/-- The persisted `Event` document (`bson` fields `_id`, `type`, `state`,
`started_at`, `finished_at`); `FinishedAt *time.Time` is an `Option`. -/
structure Event where
  id : Nat
  type : String
  state : State
  startedAt : Nat
  finishedAt : Option Nat
deriving DecidableEq

/-- The state of the Mongo collection: documents in natural (insertion)
order plus the id-assignment counter. -/
structure Store where
  rows : List Event
  nextId : Nat
deriving DecidableEq

/-- The filter `bson.M{"type": eventType, "state": Active}` used by
`FindActive` and `Finish`. -/
def activeOfType (t : String) (e : Event) : Prop :=
  e.type = t ∧ e.state = State.Active

instance (t : String) (e : Event) : Decidable (activeOfType t e) :=
  inferInstanceAs (Decidable (And _ _))

/-- Model of `EventRepository.FindActive`: `FindOne` with the active-of-type filter;
`ErrNoDocuments` is mapped to `(nil, nil)`, i.e. `none` without error. -/
def EventRepository.FindActive (rows : List Event) (t : String) : Option Event :=
  rows.find? fun e => decide (activeOfType t e)

/-- The document built by `EventRepository.Create` before insertion, with
the id Mongo assigns on insert (`InsertedID`, modelled by `nextId`). -/
def newEvent (st : Store) (t : String) (now : Nat) : Event :=
  { id := st.nextId, type := t, state := State.Active, startedAt := now, finishedAt := none }

/-- Model of `EventRepository.Create`: insert a new document with `state = Active`,
`started_at = now`, no `finished_at`; Mongo assigns the id (`nextId`). -/
def EventRepository.Create (st : Store) (t : String) (now : Nat) : Event × Store :=
  (newEvent st t now, { rows := st.rows ++ [newEvent st t now], nextId := st.nextId + 1 })

/-- The update `$set {state: Finished, finished_at: now}` applied by
`FindOneAndUpdate` in `EventRepository.Finish`. -/
def finishUpdate (now : Nat) (e : Event) : Event :=
  { e with state := State.Finished, finishedAt := some now }

/-- Model of `FindOneAndUpdate(filter, update, ReturnDocument(After))` on the
collection: update the first document (natural order) matching
`activeOfType t`, returning the post-update document and the new
collection; `none` models `ErrNoDocuments`. -/
def findOneAndUpdateActive (t : String) (now : Nat) :
    List Event → Option (Event × List Event)
  | [] => none
  | e :: rest =>
    if activeOfType t e then
      some (finishUpdate now e, finishUpdate now e :: rest)
    else
      (findOneAndUpdateActive t now rest).map fun p => (p.1, e :: p.2)

/-- Model of `EventRepository.Finish`: the atomic find-and-update; returns
`ErrNoDocuments` (`none`) when no active document of the type exists. -/
def EventRepository.Finish (st : Store) (t : String) (now : Nat) :
    Option (Event × Store) :=
  match findOneAndUpdateActive t now st.rows with
  | none => none
  | some (updated, rows') => some (updated, { st with rows := rows' })

/-- The sort option `bson.D{{"started_at", -1}}`: `a` before `b` when
`a.startedAt ≥ b.startedAt` (descending). -/
def startedGE (a b : Event) : Prop :=
  b.startedAt ≤ a.startedAt

instance : DecidableRel startedGE := fun a b =>
  inferInstanceAs (Decidable (b.startedAt ≤ a.startedAt))

instance : IsTotal Event startedGE :=
  ⟨fun a b => (Nat.le_total b.startedAt a.startedAt).imp id id⟩

instance : IsTrans Event startedGE :=
  ⟨fun _ _ _ hab hbc => Nat.le_trans hbc hab⟩

/-- Model of `EventRepository.List`: filter by type when `eventType` is non-empty,
sort by `started_at` descending (Mongo's sort is modelled as a stable sort
over natural order), skip `offset` when positive, cap to `limit` when
positive (`limit = 0` means unbounded). -/
def EventRepository.List (rows : List Event) (offset limit : Nat) (eventType : String) :
    List Event :=
  let filtered := if eventType = "" then rows else rows.filter fun e => decide (e.type = eventType)
  let sorted := filtered.insertionSort startedGE
  let skipped := if offset > 0 then sorted.drop offset else sorted
  if limit > 0 then skipped.take limit else skipped

/-- Model of `EventService.Start`: `FindActive`; if a document is returned, hand it
back with the store untouched, else `Create`. -/
def EventService.Start (st : Store) (t : String) (now : Nat) : Event × Store :=
  match EventRepository.FindActive st.rows t with
  | some active => (active, st)
  | none => EventRepository.Create st t now

/-- Model of `EventService.Finish`: delegates to the repository; `ErrNoDocuments`
(`none`) and every other outcome are passed through unchanged. -/
def EventService.Finish (st : Store) (t : String) (now : Nat) :
    Option (Event × Store) :=
  EventRepository.Finish st t now

/-- Model of `EventService.List`: delegates to the repository, no transformation. -/
def EventService.List (st : Store) (offset limit : Nat) (eventType : String) :
    List Event :=
  EventRepository.List st.rows offset limit eventType

/-- The character class `[a-z0-9]` of the handler's `typePattern`. -/
def typeChar (c : Char) : Bool :=
  (decide (Char.ofNat 97 ≤ c) && decide (c ≤ Char.ofNat 122)) ||
    (decide (Char.ofNat 48 ≤ c) && decide (c ≤ Char.ofNat 57))

/-- Model of `validateEventType`: `regexp.MustCompile("^[a-z0-9]+$").MatchString`,
i.e. the whole string is one or more characters from `[a-z0-9]`. -/
def validateEventType (eventType : String) : Bool :=
  !eventType.data.isEmpty && eventType.data.all typeChar

/-- Outcomes of an HTTP handler, as far as the core contract goes. -/
inductive HandlerOutcome where
  | badRequest : HandlerOutcome
  | notFound : HandlerOutcome
  | ok : Event → HandlerOutcome
deriving DecidableEq

/-- Model of `EventHandler.Start` after JSON binding: reject the type when
`validateEventType` fails (without calling the service), otherwise run
`EventService.Start`. -/
def EventHandler.Start (st : Store) (t : String) (now : Nat) : HandlerOutcome × Store :=
  if validateEventType t then
    let r := EventService.Start st t now
    (HandlerOutcome.ok r.1, r.2)
  else (HandlerOutcome.badRequest, st)

/-- Model of `EventHandler.Finish` after JSON binding: the same format check, then
`EventService.Finish`, mapping `ErrNoDocuments` to 404. -/
def EventHandler.Finish (st : Store) (t : String) (now : Nat) : HandlerOutcome × Store :=
  if validateEventType t then
    match EventService.Finish st t now with
    | none => (HandlerOutcome.notFound, st)
    | some (e, st') => (HandlerOutcome.ok e, st')
  else (HandlerOutcome.badRequest, st)

/-- Digit run of `strconv.Atoi`: one or more ASCII digits, base 10. -/
def parseDigits (cs : List Char) : Option Nat :=
  if cs.isEmpty then none
  else if cs.all fun c => decide (Char.ofNat 48 ≤ c) && decide (c ≤ Char.ofNat 57) then
    some (cs.foldl (fun a c => a * 10 + (c.toNat - 48)) 0)
  else none

/-- Model of `strconv.Atoi`: optional sign, then digits; the value must fit in a
64-bit `int` or the call errors (`ErrRange`), which the handler treats the
same as a syntax error. -/
def goAtoi (s : String) : Option Int :=
  match s.data with
  | [] => none
  | c :: rest =>
    let signed : Bool × List Char :=
      if c = Char.ofNat 45 then (true, rest)
      else if c = Char.ofNat 43 then (false, rest)
      else (false, c :: rest)
    match parseDigits signed.2 with
    | none => none
    | some n =>
      let v : Int := if signed.1 then -(n : Int) else (n : Int)
      if v < -(2 ^ 63) ∨ (2 ^ 63 : Int) ≤ v then none else some v

/-- The `offset` check inlined in `EventHandler.List`: a query parameter is
absent when `c.Query` returns `""` and then stays `0`; a present one must
`Atoi`-parse and be non-negative, else 400 (`none`). -/
def validateOffsetParam (offsetRaw : String) : Option Int :=
  if offsetRaw = "" then some 0
  else match goAtoi offsetRaw with
    | none => none
    | some o => if o < 0 then none else some o

/-- The `limit` check inlined in `EventHandler.List`: absent stays `0`; a
present one must `Atoi`-parse and lie in `[0, 100]`, else 400 (`none`). -/
def validateLimitParam (limitRaw : String) : Option Int :=
  if limitRaw = "" then some 0
  else match goAtoi limitRaw with
    | none => none
    | some l => if l < 0 ∨ 100 < l then none else some l

/-- The pagination-parameter validation of `EventHandler.List`, in the
handler's order: check `offset`, return 400 on failure, then check `limit`,
return 400 on failure. -/
def validatePagination (offsetRaw limitRaw : String) : Option (Int × Int) :=
  match validateOffsetParam offsetRaw with
  | none => none
  | some o =>
    match validateLimitParam limitRaw with
    | none => none
    | some l => some (o, l)

/-- Model of `EventHandler.List`: validate `offset` and `limit`, pass `type` through
unvalidated, and call the service; `none` is the 400 response, in which case
the service is never invoked. -/
def EventHandler.List (st : Store) (offsetRaw limitRaw typeFilter : String) :
    Option (List Event) :=
  match validatePagination offsetRaw limitRaw with
  | none => none
  | some (o, l) => some (EventService.List st o.toNat l.toNat typeFilter)

/-- Number of documents matching `activeOfType t`, the quantity bounded by
invariant I1. -/
def countActive (t : String) (rows : List Event) : Nat :=
  rows.countP fun e => decide (activeOfType t e)

/-- Invariant I1: at most one active document per type. -/
def storeInv (st : Store) : Prop :=
  ∀ t, countActive t st.rows ≤ 1

/-- Well-formedness of the Mongo id assignment: every assigned `_id` is
below the counter and ids are pairwise distinct (never reused). -/
def StoreWF (st : Store) : Prop :=
  (∀ e ∈ st.rows, e.id < st.nextId) ∧ st.rows.Pairwise fun a b => a.id ≠ b.id

/-- The list contract in the spec's own words (§4.1 `list`): take all
stored rows, restrict to rows of type `f` exactly when `f` is non-empty,
order by `startedAt` descending (stable), drop the first `offset` rows,
and when `limit > 0` keep at most the first `limit` rows (`limit = 0`
means unbounded). -/
def listSpec (rows : List Event) (offset limit : Nat) (f : String) : List Event :=
  let restricted := if f = "" then rows else rows.filter fun e => decide (e.type = f)
  let ordered := restricted.insertionSort startedGE
  let dropped := ordered.drop offset
  if limit = 0 then dropped else dropped.take limit

/-- Sample document: an active `meeting`, used to instantiate witnesses. -/
def evMeeting : Event :=
  { id := 0, type := "meeting", state := State.Active, startedAt := 5, finishedAt := none }

/-- Sample document: a finished `call`. -/
def evCallDone : Event :=
  { id := 1, type := "call", state := State.Finished, startedAt := 3, finishedAt := some 4 }

/-- Sample store holding the two sample documents. -/
def sampleStore : Store :=
  { rows := [evMeeting, evCallDone], nextId := 2 }

/-- Sample document: `evMeeting` after being finished at time 9. -/
def evMeetingDone : Event :=
  { id := 0, type := "meeting", state := State.Finished, startedAt := 5, finishedAt := some 9 }

/-- Sample store: `sampleStore` after `Finish "meeting"` at time 9. -/
def sampleStoreDone : Store :=
  { rows := [evMeetingDone, evCallDone], nextId := 2 }

example : validateEventType "meeting123" = true := by decide
example : validateEventType "Meeting" = false := by decide
example : validateEventType "meeting-1" = false := by decide
example : validateEventType "meeting 1" = false := by decide
example : validateEventType "" = false := by decide
example : goAtoi "-12" = some (-12) := by decide
example : goAtoi "+7" = some 7 := by decide
example : goAtoi "1x" = none := by decide
example : goAtoi "" = none := by decide
example : validatePagination "" "" = some (0, 0) := by decide
example : validatePagination "3" "101" = none := by decide
example : validatePagination "-1" "5" = none := by decide

/-! ### General list helpers -/

theorem countP_le_one_unique {α : Type} {p : α → Bool} :
    ∀ {l : List α}, l.countP p ≤ 1 →
      ∀ {a b : α}, a ∈ l → p a = true → b ∈ l → p b = true → a = b := by
  intro l
  induction l with
  | nil => intro _ a b ha; cases ha
  | cons c l ih =>
    intro h a b ha hpa hb hpb
    rw [List.countP_cons] at h
    rcases List.mem_cons.mp ha with rfl | ha₂ <;> rcases List.mem_cons.mp hb with rfl | hb₂
    · rfl
    · exfalso
      simp only [hpa, if_true] at h
      have h0 : l.countP p = 0 := by omega
      exact (List.countP_eq_zero.mp h0) b hb₂ hpb
    · exfalso
      simp only [hpb, if_true] at h
      have h0 : l.countP p = 0 := by omega
      exact (List.countP_eq_zero.mp h0) a ha₂ hpa
    · have hle : l.countP p ≤ 1 := le_trans (Nat.le_add_right _ _) h
      exact ih hle ha₂ hpa hb₂ hpb

theorem find?_eq_some_of_unique {α : Type} {p : α → Bool} {l : List α}
    (h1 : l.countP p ≤ 1) {a : α} (ha : a ∈ l) (hpa : p a = true) :
    l.find? p = some a := by
  cases hfind : l.find? p with
  | none => exact absurd hpa (List.find?_eq_none.mp hfind a ha)
  | some x =>
    have hx : p x = true := List.find?_some hfind
    have hmx : x ∈ l := List.mem_of_find?_eq_some hfind
    rw [countP_le_one_unique h1 hmx hx ha hpa]

theorem pairwise_ne_id_unique :
    ∀ {l : List Event}, (l.Pairwise fun a b => a.id ≠ b.id) →
      ∀ {a b : Event}, a ∈ l → b ∈ l → a.id = b.id → a = b := by
  intro l
  induction l with
  | nil => intro _ a b ha; cases ha
  | cons c l ih =>
    intro hpw a b ha hb hid
    rw [List.pairwise_cons] at hpw
    rcases List.mem_cons.mp ha with rfl | ha₂ <;> rcases List.mem_cons.mp hb with rfl | hb₂
    · rfl
    · exact absurd hid (hpw.1 b hb₂)
    · exact absurd hid.symm (hpw.1 a ha₂)
    · exact ih hpw.2 ha₂ hb₂ hid

/-! ### `FindActive` lemmas -/

theorem findActive_eq_none {rows : List Event} {t : String} :
    EventRepository.FindActive rows t = none ↔ ∀ e ∈ rows, ¬ activeOfType t e := by
  unfold EventRepository.FindActive
  rw [List.find?_eq_none]
  simp only [decide_eq_true_eq]

theorem findActive_some {rows : List Event} {t : String} {e : Event}
    (h : EventRepository.FindActive rows t = some e) :
    e ∈ rows ∧ activeOfType t e := by
  unfold EventRepository.FindActive at h
  have h1 := List.find?_some h
  simp only [decide_eq_true_eq] at h1
  exact ⟨List.mem_of_find?_eq_some h, h1⟩

theorem findActive_of_unique {rows : List Event} {t : String}
    (hInv : countActive t rows ≤ 1) {e : Event} (he : e ∈ rows) (ha : activeOfType t e) :
    EventRepository.FindActive rows t = some e :=
  find?_eq_some_of_unique (by simpa [countActive] using hInv) he (decide_eq_true ha)

/-! ### `countActive` lemmas -/

theorem countActive_append (t : String) (l₁ l₂ : List Event) :
    countActive t (l₁ ++ l₂) = countActive t l₁ + countActive t l₂ :=
  List.countP_append _ _ _

theorem countActive_cons (t : String) (e : Event) (rows : List Event) :
    countActive t (e :: rows) = countActive t rows + if activeOfType t e then 1 else 0 := by
  by_cases h : activeOfType t e <;> simp [countActive, List.countP_cons, h]

theorem countActive_eq_zero {t : String} {rows : List Event} :
    countActive t rows = 0 ↔ ∀ e ∈ rows, ¬ activeOfType t e := by
  unfold countActive
  rw [List.countP_eq_zero]
  simp only [decide_eq_true_eq]

/-! ### `Start` lemmas -/

theorem start_of_active {st : Store} {t : String} {now : Nat} {e : Event}
    (hInv : countActive t st.rows ≤ 1) (he : e ∈ st.rows) (ha : activeOfType t e) :
    EventService.Start st t now = (e, st) := by
  unfold EventService.Start
  rw [findActive_of_unique hInv he ha]

theorem start_of_no_active {st : Store} {t : String} {now : Nat}
    (h : ∀ e ∈ st.rows, ¬ activeOfType t e) :
    EventService.Start st t now = EventRepository.Create st t now := by
  unfold EventService.Start
  rw [findActive_eq_none.mpr h]

theorem start_result_type (st : Store) (t : String) (now : Nat) :
    (EventService.Start st t now).1.type = t := by
  unfold EventService.Start
  cases hfind : EventRepository.FindActive st.rows t with
  | some e => exact (findActive_some hfind).2.1
  | none => rfl

theorem start_result_mem (st : Store) (t : String) (now : Nat) :
    (EventService.Start st t now).1 ∈ (EventService.Start st t now).2.rows := by
  unfold EventService.Start
  cases hfind : EventRepository.FindActive st.rows t with
  | some e => exact (findActive_some hfind).1
  | none =>
    simp [EventRepository.Create]

theorem start_rows_mono {st : Store} (t : String) (now : Nat) {e : Event}
    (he : e ∈ st.rows) : e ∈ (EventService.Start st t now).2.rows := by
  unfold EventService.Start
  cases hfind : EventRepository.FindActive st.rows t with
  | some a => exact he
  | none => simp [EventRepository.Create, List.mem_append, he]

theorem start_preserves_wf {st : Store} (t : String) (now : Nat) (h : StoreWF st) :
    StoreWF (EventService.Start st t now).2 := by
  unfold EventService.Start
  cases hfind : EventRepository.FindActive st.rows t with
  | some a => exact h
  | none =>
    obtain ⟨hbound, hpw⟩ := h
    constructor
    · intro e he
      simp only [EventRepository.Create, List.mem_append, List.mem_singleton] at he
      rcases he with he | rfl
      · exact Nat.lt_succ_of_lt (hbound e he)
      · exact Nat.lt_succ_self _
    · simp only [EventRepository.Create]
      rw [List.pairwise_append]
      refine ⟨hpw, List.pairwise_singleton _ _, ?_⟩
      intro a ha b hb
      rw [List.mem_singleton] at hb
      subst hb
      exact Nat.ne_of_lt (hbound a ha)

/-! ### `findOneAndUpdateActive` lemmas -/

theorem findOneAndUpdateActive_eq_none {t : String} {now : Nat} :
    ∀ {rows : List Event},
      findOneAndUpdateActive t now rows = none ↔ ∀ e ∈ rows, ¬ activeOfType t e := by
  intro rows
  induction rows with
  | nil => simp [findOneAndUpdateActive]
  | cons e rest ih =>
    by_cases h : activeOfType t e
    · simp [findOneAndUpdateActive, h]
    · simp only [findOneAndUpdateActive, if_neg h, Option.map_eq_none', ih,
        List.mem_cons]
      constructor
      · intro hall x hx
        rcases hx with rfl | hx
        · exact h
        · exact hall x hx
      · intro hall x hx
        exact hall x (Or.inr hx)

theorem findOneAndUpdateActive_eq_some {t : String} {now : Nat} :
    ∀ {rows : List Event} {u : Event} {rows' : List Event},
      findOneAndUpdateActive t now rows = some (u, rows') →
      ∃ pre old post,
        rows = pre ++ old :: post ∧
        (∀ x ∈ pre, ¬ activeOfType t x) ∧
        activeOfType t old ∧
        u = finishUpdate now old ∧
        rows' = pre ++ u :: post := by
  intro rows
  induction rows with
  | nil => intro u rows' h; cases h
  | cons e rest ih =>
    intro u rows' h
    by_cases ha : activeOfType t e
    · rw [findOneAndUpdateActive, if_pos ha] at h
      have h1 : finishUpdate now e = u ∧ finishUpdate now e :: rest = rows' := by
        have := Option.some.inj h
        exact ⟨congrArg Prod.fst this, congrArg Prod.snd this⟩
      obtain ⟨h2, h3⟩ := h1
      subst h2
      subst h3
      exact ⟨[], e, rest, rfl, by simp, ha, rfl, rfl⟩
    · rw [findOneAndUpdateActive, if_neg ha] at h
      rcases Option.map_eq_some'.mp h with ⟨⟨u0, rest0⟩, hrec, heq⟩
      have h1 : u0 = u ∧ e :: rest0 = rows' := by
        exact ⟨congrArg Prod.fst heq, congrArg Prod.snd heq⟩
      obtain ⟨h2, h3⟩ := h1
      subst h2
      subst h3
      obtain ⟨pre, old, post, hsplit, hpre, hold, hu, hrows⟩ := ih hrec
      refine ⟨e :: pre, old, post, by rw [hsplit]; rfl, ?_, hold, hu, by rw [hrows]; rfl⟩
      intro x hx
      rcases List.mem_cons.mp hx with rfl | hx
      · exact ha
      · exact hpre x hx

/-! ### `Finish` lemmas -/

theorem finish_eq_none {st : Store} {t : String} {now : Nat} :
    EventService.Finish st t now = none ↔ ∀ e ∈ st.rows, ¬ activeOfType t e := by
  unfold EventService.Finish EventRepository.Finish
  cases hrec : findOneAndUpdateActive t now st.rows with
  | none =>
    exact iff_of_true rfl (findOneAndUpdateActive_eq_none.mp hrec)
  | some p =>
    obtain ⟨u, rows'⟩ := p
    constructor
    · intro h; cases h
    · intro hall
      rw [findOneAndUpdateActive_eq_none.mpr hall] at hrec
      cases hrec

theorem finish_eq_some {st : Store} {t : String} {now : Nat} {e : Event} {st' : Store}
    (h : EventService.Finish st t now = some (e, st')) :
    ∃ pre old post,
      st.rows = pre ++ old :: post ∧
      (∀ x ∈ pre, ¬ activeOfType t x) ∧
      activeOfType t old ∧
      e = finishUpdate now old ∧
      st'.rows = pre ++ e :: post ∧
      st'.nextId = st.nextId := by
  unfold EventService.Finish EventRepository.Finish at h
  cases hrec : findOneAndUpdateActive t now st.rows with
  | none => rw [hrec] at h; cases h
  | some p =>
    obtain ⟨u, rows'⟩ := p
    rw [hrec] at h
    have h1 := Option.some.inj h
    have h2 : u = e := congrArg Prod.fst h1
    have h3 : ({ st with rows := rows' } : Store) = st' := congrArg Prod.snd h1
    subst h2
    obtain ⟨pre, old, post, hsplit, hpre, hold, hu, hrows⟩ := findOneAndUpdateActive_eq_some hrec
    refine ⟨pre, old, post, hsplit, hpre, hold, hu, ?_, ?_⟩
    · rw [← h3]
      exact hrows
    · rw [← h3]

theorem finish_preserves_inv {st : Store} {t : String} {now : Nat} {e : Event} {st' : Store}
    (h : storeInv st) (hfin : EventService.Finish st t now = some (e, st')) :
    storeInv st' := by
  obtain ⟨pre, old, post, hsplit, _, hold, hu, hrows, _⟩ := finish_eq_some hfin
  intro v
  rw [hrows, countActive_append, countActive_cons]
  have hup : ¬ activeOfType v e := by
    rw [hu]
    intro hx
    simp [finishUpdate, activeOfType] at hx
  rw [if_neg hup]
  have horig := h v
  rw [hsplit, countActive_append, countActive_cons] at horig
  by_cases hvold : activeOfType v old
  · rw [if_pos hvold] at horig; omega
  · rw [if_neg hvold] at horig; omega

theorem finish_frame {st : Store} {t : String} {now : Nat} {e : Event} {st' : Store}
    (hfin : EventService.Finish st t now = some (e, st')) :
    ∀ (j : Nat) (r : Event), st.rows[j]? = some r →
      (r.type ≠ t ∨ r.state = State.Finished) →
      st'.rows[j]? = some r := by
  obtain ⟨pre, old, post, hsplit, _, hold, _, hrows, _⟩ := finish_eq_some hfin
  intro j r hj hr
  rw [hsplit, List.getElem?_append] at hj
  rw [hrows, List.getElem?_append]
  by_cases hlt : j < pre.length
  · rw [if_pos hlt] at hj ⊢
    exact hj
  · rw [if_neg hlt] at hj ⊢
    cases hk : j - pre.length with
    | zero =>
      rw [hk] at hj
      have hro : old = r := by simpa using hj
      subst hro
      rcases hr with hr | hr
      · exact absurd hold.1 hr
      · rw [hold.2] at hr
        cases hr
    | succ n =>
      rw [hk] at hj
      simpa using hj

/-! ### Facts about the sample store, shared by the witnesses -/

theorem sampleStore_inv : storeInv sampleStore := by
  intro t
  have h1 : ¬ activeOfType t evCallDone := by
    intro hx
    simp [activeOfType, evCallDone] at hx
  have h2 : countActive t sampleStore.rows
      = if activeOfType t evMeeting then 1 else 0 := by
    show countActive t [evMeeting, evCallDone] = _
    rw [countActive_cons, countActive_cons, if_neg h1]
    simp [countActive]
  rw [h2]
  split_ifs <;> omega

theorem sampleStore_wf : StoreWF sampleStore :=
  ⟨by decide, by decide⟩

/-! ### Claim theorems -/

/-- C1: starting from a store in which every type has at most one row in
state `Active` (invariant I1), each operation preserves that property:
`Start` returns a store still satisfying I1, every successful `Finish`
returns a store still satisfying I1, and `List` is a pure read — it
delegates to the repository query and returns no new store, so the store
after a `List` call is `st` itself and still satisfies I1. -/
theorem invariant_I1_preserved (st : Store) (t : String) (now k m : Nat) (f : String)
    (h : storeInv st) :
    storeInv (EventService.Start st t now).2 ∧
    (∀ e st', EventService.Finish st t now = some (e, st') → storeInv st') ∧
    (EventService.List st k m f = EventRepository.List st.rows k m f ∧ storeInv st) := by
  refine ⟨?_, fun e st' hfin => finish_preserves_inv h hfin, rfl, h⟩
  unfold EventService.Start
  cases hfind : EventRepository.FindActive st.rows t with
  | some a => exact h
  | none =>
    intro v
    have hnone := findActive_eq_none.mp hfind
    show countActive v (st.rows ++ [newEvent st t now]) ≤ 1
    rw [countActive_append]
    by_cases hv : v = t
    · subst hv
      rw [countActive_eq_zero.mpr hnone]
      have h1 : countActive v [newEvent st v now] = 1 := by
        simp [countActive, List.countP_cons, newEvent, activeOfType]
      omega
    · have h1 : countActive v [newEvent st t now] = 0 := by
        simp [countActive, List.countP_cons, newEvent, activeOfType, Ne.symm hv]
      have h2 := h v
      omega

/-- C1 witness: the sample store satisfies I1 and keeps satisfying it after
`Start "call"`. -/
theorem invariant_I1_preserved_witness :
    storeInv (EventService.Start sampleStore "call" 7).2 :=
  (invariant_I1_preserved sampleStore "call" 7 0 0 "" sampleStore_inv).1

/-- C2: under invariant I1, if an active row of type `t` exists then
`Start t` returns exactly that row and leaves the store unchanged (no field
updated, nothing inserted); if none exists, `Start t` inserts exactly one
new row `{id := nextId, type := t, state := Active, startedAt := now,
finishedAt := none}` and returns it. -/
theorem start_contract (st : Store) (t : String) (now : Nat)
    (hInv : storeInv st) :
    (∀ e ∈ st.rows, activeOfType t e → EventService.Start st t now = (e, st)) ∧
    ((∀ e ∈ st.rows, ¬ activeOfType t e) →
      EventService.Start st t now =
        ({ id := st.nextId, type := t, state := State.Active,
           startedAt := now, finishedAt := none },
         { rows := st.rows ++
             [{ id := st.nextId, type := t, state := State.Active,
                startedAt := now, finishedAt := none }],
           nextId := st.nextId + 1 })) := by
  constructor
  · intro e he ha
    exact start_of_active (hInv t) he ha
  · intro hnone
    rw [start_of_no_active hnone]
    rfl

/-- C2 witness: starting `"meeting"` twice in a row on the sample store is
idempotent (same row, store unchanged), and starting the fresh type
`"task"` inserts a new active row with the store-assigned id. -/
theorem start_contract_witness :
    EventService.Start sampleStore "meeting" 9 = (evMeeting, sampleStore) ∧
    EventService.Start sampleStore "task" 9 =
      ({ id := 2, type := "task", state := State.Active,
         startedAt := 9, finishedAt := none },
       { rows := [evMeeting, evCallDone,
          { id := 2, type := "task", state := State.Active,
            startedAt := 9, finishedAt := none }],
         nextId := 3 }) := by
  have h1 := (start_contract sampleStore "meeting" 9 sampleStore_inv).1 evMeeting
    (by decide) (by decide)
  have h2 := (start_contract sampleStore "task" 9 sampleStore_inv).2 (by decide)
  exact ⟨h1, by rw [h2]; rfl⟩

/-- C3: `Finish t` returns `NotFound` (`mongo.ErrNoDocuments`, modelled as
`none`) exactly when the store holds no row with type `t` in state
`Active` — including a type never started and a type whose rows are all
finished; in that case the handler surfaces 404 with the store unchanged.
(Any storage failure other than `ErrNoDocuments` is passed through by the
service verbatim — in the code `Finish` returns `err` itself.) -/
theorem finish_notfound_contract (st : Store) (t : String) (now : Nat) :
    (EventService.Finish st t now = none ↔ ∀ e ∈ st.rows, ¬ activeOfType t e) ∧
    (validateEventType t = true → EventService.Finish st t now = none →
      EventHandler.Finish st t now = (HandlerOutcome.notFound, st)) := by
  constructor
  · exact finish_eq_none
  · intro hv hn
    unfold EventHandler.Finish
    rw [if_pos hv, hn]

/-- C3 witness: finishing `"call"` (whose only row is already finished)
yields `NotFound` and a 404 with the store unchanged; finishing the
never-started `"task"` also yields `NotFound`. -/
theorem finish_notfound_contract_witness :
    EventService.Finish sampleStore "call" 9 = none ∧
    EventHandler.Finish sampleStore "call" 9 = (HandlerOutcome.notFound, sampleStore) ∧
    EventService.Finish sampleStore "task" 9 = none := by
  have h := finish_notfound_contract sampleStore "call" 9
  have hn : EventService.Finish sampleStore "call" 9 = none := h.1.mpr (by decide)
  have h2 := (finish_notfound_contract sampleStore "task" 9).1.mpr (by decide)
  exact ⟨hn, h.2 (by decide) hn, h2⟩

/-- C4: a successful `Finish t` transitions the first active row of type
`t` in place: the returned event has type `t`, state `Finished`,
`finishedAt = now`, and — when the clock is monotone, i.e. every stored
`startedAt` is `≤ now` — `finishedAt ≥ startedAt`; the row keeps its id and
`startedAt`, the rest of the collection and the id counter are untouched,
and the returned document is exactly the post-update row stored in the new
collection (a single find-and-modify, not a stale pre-update read). -/
theorem finish_success_contract (st : Store) (t : String) (now : Nat) (e : Event) (st' : Store)
    (hfin : EventService.Finish st t now = some (e, st'))
    (hclock : ∀ r ∈ st.rows, r.startedAt ≤ now) :
    e.type = t ∧ e.state = State.Finished ∧ e.finishedAt = some now ∧
    e.startedAt ≤ now ∧ st'.nextId = st.nextId ∧
    ∃ pre old post,
      st.rows = pre ++ old :: post ∧ st'.rows = pre ++ e :: post ∧
      activeOfType t old ∧ e.id = old.id ∧ e.startedAt = old.startedAt := by
  obtain ⟨pre, old, post, hsplit, hpre, hold, hu, hrows, hnext⟩ := finish_eq_some hfin
  have hmem : old ∈ st.rows := by
    rw [hsplit]
    exact List.mem_append_right _ (List.mem_cons_self _ _)
  subst hu
  refine ⟨?_, rfl, rfl, ?_, hnext, pre, old, post, hsplit, hrows, hold, rfl, rfl⟩
  · simpa [finishUpdate] using hold.1
  · simpa [finishUpdate] using hclock old hmem

/-- C4 witness: finishing `"meeting"` at time 9 on the sample store returns
the meeting row finished at 9, with `finishedAt ≥ startedAt`. -/
theorem finish_success_contract_witness :
    evMeetingDone.type = "meeting" ∧ evMeetingDone.state = State.Finished ∧
    evMeetingDone.finishedAt = some 9 ∧ evMeetingDone.startedAt ≤ 9 := by
  have hfin : EventService.Finish sampleStore "meeting" 9 =
      some (evMeetingDone, sampleStoreDone) := by decide
  have h := finish_success_contract sampleStore "meeting" 9 evMeetingDone sampleStoreDone
    hfin (by decide)
  exact ⟨h.1, h.2.1, h.2.2.1, h.2.2.2.1⟩

/-- C8: `FindActive` treats absence as a normal outcome: it returns `none`
(no error — the code maps `ErrNoDocuments` to `(nil, nil)`) exactly when no
active row of the type exists, and whenever it returns a row, that row is a
stored active row of the requested type. -/
theorem findActive_absence_contract (rows : List Event) (t : String) :
    (EventRepository.FindActive rows t = none ↔ ∀ e ∈ rows, ¬ activeOfType t e) ∧
    (∀ e, EventRepository.FindActive rows t = some e → e ∈ rows ∧ activeOfType t e) :=
  ⟨findActive_eq_none, fun _ h => findActive_some h⟩

/-- C8 witness: on the sample rows, `FindActive "call"` is `none` (the only
`call` row is finished) and `FindActive "meeting"` returns the active
meeting row. -/
theorem findActive_absence_contract_witness :
    EventRepository.FindActive sampleStore.rows "call" = none ∧
    (evMeeting ∈ sampleStore.rows ∧ activeOfType "meeting" evMeeting) := by
  have h1 := (findActive_absence_contract sampleStore.rows "call").1.mpr (by decide)
  have h2 := (findActive_absence_contract sampleStore.rows "meeting").2 evMeeting (by decide)
  exact ⟨h1, h2⟩

/-- C9: frame property across types. With well-formed id assignment,
`Start t1` then `Start t2` for `t1 ≠ t2` return rows with distinct ids; and
a successful `Finish t1` leaves every row that is not the active `t1` row —
every row of another type and every already-finished row of type `t1` —
unchanged in place (same position, all fields intact). -/
theorem type_independence_contract (st : Store) (t1 t2 : String) (n1 n2 now : Nat)
    (hwf : StoreWF st) (hne : t1 ≠ t2) :
    (EventService.Start st t1 n1).1.id ≠
      (EventService.Start (EventService.Start st t1 n1).2 t2 n2).1.id ∧
    (∀ e st', EventService.Finish st t1 now = some (e, st') →
      ∀ (j : Nat) (r : Event), st.rows[j]? = some r →
        (r.type ≠ t1 ∨ r.state = State.Finished) →
        st'.rows[j]? = some r) := by
  constructor
  · intro hid
    have h1mem : (EventService.Start st t1 n1).1 ∈
        (EventService.Start (EventService.Start st t1 n1).2 t2 n2).2.rows :=
      start_rows_mono t2 n2 (start_result_mem st t1 n1)
    have h2mem : (EventService.Start (EventService.Start st t1 n1).2 t2 n2).1 ∈
        (EventService.Start (EventService.Start st t1 n1).2 t2 n2).2.rows :=
      start_result_mem (EventService.Start st t1 n1).2 t2 n2
    have hwf2 : StoreWF (EventService.Start (EventService.Start st t1 n1).2 t2 n2).2 :=
      start_preserves_wf t2 n2 (start_preserves_wf t1 n1 hwf)
    have heq := pairwise_ne_id_unique hwf2.2 h1mem h2mem hid
    have ht1 := start_result_type st t1 n1
    have ht2 := start_result_type (EventService.Start st t1 n1).2 t2 n2
    rw [heq, ht2] at ht1
    exact hne ht1.symm
  · intro e st' hfin
    exact finish_frame hfin

/-- C9 witness: on the sample store, `Start "task"` then `Start "call"`
give distinct ids. -/
theorem type_independence_contract_witness :
    (EventService.Start sampleStore "task" 7).1.id ≠
      (EventService.Start (EventService.Start sampleStore "task" 7).2 "call" 8).1.id :=
  (type_independence_contract sampleStore "task" "call" 7 8 0 sampleStore_wf
    (by decide)).1

/-! ### Stable sort and filter -/

theorem orderedInsert_eq_cons {α : Type} (r : α → α → Prop) [DecidableRel r]
    {a : α} {l : List α} (h : ∀ x ∈ l, r a x) : l.orderedInsert r a = a :: l := by
  cases l with
  | nil => rfl
  | cons b t => exact List.orderedInsert_of_le r t (h b (List.mem_cons_self b t))

theorem filter_orderedInsert {α : Type} (r : α → α → Prop) [DecidableRel r]
    [IsTotal α r] [IsTrans α r] (p : α → Bool) (a : α) :
    ∀ {l : List α}, l.Sorted r →
      (l.orderedInsert r a).filter p =
        if p a then (l.filter p).orderedInsert r a else l.filter p := by
  intro l
  induction l with
  | nil =>
    intro _
    by_cases hpa : p a <;> simp [List.orderedInsert, List.filter_cons, hpa]
  | cons b t ih =>
    intro hs
    rw [List.sorted_cons] at hs
    by_cases hab : r a b
    · rw [List.orderedInsert, if_pos hab]
      by_cases hpa : p a
      · rw [List.filter_cons, if_pos hpa, if_pos hpa]
        have hall : ∀ x ∈ (b :: t).filter p, r a x := by
          intro x hx
          have hx2 := (List.mem_filter.mp hx).1
          rcases List.mem_cons.mp hx2 with rfl | hx3
          · exact hab
          · exact Trans.trans hab (hs.1 x hx3)
        rw [orderedInsert_eq_cons r hall]
      · rw [List.filter_cons, if_neg hpa, if_neg hpa]
    · rw [List.orderedInsert, if_neg hab, List.filter_cons]
      by_cases hpb : p b
      · rw [if_pos hpb, List.filter_cons, ih hs.2]
        by_cases hpa : p a
        · rw [if_pos hpa, if_pos hpa, if_pos hpb, List.orderedInsert, if_neg hab]
        · rw [if_neg hpa, if_neg hpa, if_pos hpb]
      · rw [if_neg hpb, List.filter_cons, ih hs.2]
        by_cases hpa : p a
        · rw [if_pos hpa, if_pos hpa, if_neg hpb]
        · rw [if_neg hpa, if_neg hpa, if_neg hpb]

theorem filter_insertionSort {α : Type} (r : α → α → Prop) [DecidableRel r]
    [IsTotal α r] [IsTrans α r] (p : α → Bool) :
    ∀ l : List α, (l.insertionSort r).filter p = (l.filter p).insertionSort r := by
  intro l
  induction l with
  | nil => rfl
  | cons a l ih =>
    rw [List.insertionSort,
      filter_orderedInsert r p a (List.sorted_insertionSort r l), ih, List.filter_cons]
    by_cases hpa : p a
    · rw [if_pos hpa, if_pos hpa, List.insertionSort]
    · rw [if_neg hpa, if_neg hpa]

/-! ### `List` lemmas -/

theorem repoList_sublist_sorted (rows : List Event) (k m : Nat) (f : String) :
    List.Sublist (EventRepository.List rows k m f)
      ((if f = "" then rows else rows.filter fun x => decide (x.type = f)).insertionSort
        startedGE) := by
  unfold EventRepository.List
  by_cases hk : k > 0 <;> by_cases hm : m > 0 <;>
    simp only [hk, hm, if_pos, if_neg, if_true, if_false, ite_true, ite_false,
      not_true, not_false_iff]
  · exact (List.take_sublist _ _).trans (List.drop_sublist _ _)
  · exact List.drop_sublist _ _
  · exact List.take_sublist _ _
  · exact List.Sublist.refl _

theorem repoList_eq_listSpec (rows : List Event) (k m : Nat) (f : String) :
    EventRepository.List rows k m f = listSpec rows k m f := by
  unfold EventRepository.List listSpec
  by_cases hk : k > 0 <;> by_cases hm : m > 0 <;>
    simp only [hk, hm, if_pos, if_neg, if_true, if_false, ite_true, ite_false]
  · rw [if_neg (show ¬ m = 0 by omega)]
  · rw [if_pos (show m = 0 by omega)]
  · rw [if_neg (show ¬ m = 0 by omega), Nat.le_zero.mp (Nat.not_lt.mp hk), List.drop_zero]
  · rw [if_pos (show m = 0 by omega), Nat.le_zero.mp (Nat.not_lt.mp hk), List.drop_zero]

theorem listSpec_no_page (rows : List Event) (f : String) :
    listSpec rows 0 0 f =
      (if f = "" then rows else rows.filter fun e => decide (e.type = f)).insertionSort
        startedGE := rfl

theorem listSpec_unbounded (rows : List Event) (k : Nat) :
    listSpec rows k 0 "" = (rows.insertionSort startedGE).drop k := rfl

theorem listSpec_zero_offset (rows : List Event) (m : Nat) :
    listSpec rows 0 m "" =
      if m = 0 then rows.insertionSort startedGE
      else (rows.insertionSort startedGE).take m := rfl

/-- C5 counterexample: with a single stored row, `List(0, 0, "")` returns
that row (`limit = 0` means unbounded), so its length is 1, not
`min(N, m) = min 1 0 = 0` — the claim's "List(0, m, \x22\x22) has exactly
min(N, m) rows" is false at `m = 0`. -/
theorem list_contract_counterexample :
    ¬ (EventRepository.List [evMeeting] 0 0 "").length
        = min ([evMeeting] : List Event).length 0 := by decide

/-- C5 (amended): `List(k, m, f)` equals the spec pipeline (restrict to
type `f` when `f` is non-empty, stable-sort by `startedAt` descending, drop
`k`, then cap at `m` when `m > 0`, unbounded when `m = 0`); with `N`
matching rows `List(k, 0, "")` has exactly `N - k` (truncated, i.e.
`max(N-k, 0)`) rows; for `m > 0`, `List(0, m, "")` has exactly `min(N, m)`
rows (for `m = 0` it has all `N` rows); and the type filter preserves the
relative order of the unfiltered listing: filtering the full listing gives
exactly the filtered listing. -/
theorem list_contract (rows : List Event) (k m : Nat) (f : String) :
    EventRepository.List rows k m f = listSpec rows k m f ∧
    (EventRepository.List rows k 0 "").length = rows.length - k ∧
    (0 < m → (EventRepository.List rows 0 m "").length = min rows.length m) ∧
    (EventRepository.List rows 0 0 "").length = rows.length ∧
    (f ≠ "" → EventRepository.List rows 0 0 f =
      (EventRepository.List rows 0 0 "").filter fun e => decide (e.type = f)) := by
  refine ⟨repoList_eq_listSpec rows k m f, ?_, ?_, ?_, ?_⟩
  · rw [repoList_eq_listSpec, listSpec_unbounded, List.length_drop,
      List.length_insertionSort]
  · intro hm
    rw [repoList_eq_listSpec, listSpec_zero_offset,
      if_neg (Nat.pos_iff_ne_zero.mp hm), List.length_take,
      List.length_insertionSort, Nat.min_comm]
  · rw [repoList_eq_listSpec, listSpec_unbounded, List.drop_zero,
      List.length_insertionSort]
  · intro hf
    rw [repoList_eq_listSpec, repoList_eq_listSpec, listSpec_no_page,
      listSpec_no_page, if_neg hf, if_pos rfl]
    exact (filter_insertionSort startedGE _ rows).symm

/-- C5 witness: on a concrete three-row store the listing equals the spec
pipeline, and the `m > 0` and `f ≠ ""` clauses hold at `m = 1`,
`f = "meeting"`. -/
theorem list_contract_witness :
    EventRepository.List sampleStore.rows 1 1 "meeting"
        = listSpec sampleStore.rows 1 1 "meeting" ∧
    (EventRepository.List sampleStore.rows 0 1 "").length
        = min sampleStore.rows.length 1 ∧
    EventRepository.List sampleStore.rows 0 0 "meeting"
        = (EventRepository.List sampleStore.rows 0 0 "").filter
            fun e => decide (e.type = "meeting") := by
  have h := list_contract sampleStore.rows 1 1 "meeting"
  exact ⟨h.1, (h.2.2.1 (by decide)), h.2.2.2.2 (by decide)⟩

/-- C10: no type validation below the handlers: for every string `t` —
however ill-formed — `Start t` on a store with no active `t` row succeeds
and inserts a row whose `type` is exactly `t`; and the `List` type filter
is passed through unvalidated: with a non-empty filter `f` every returned
row has type exactly `f`, a filter matching no stored row yields `[]`
rather than an error, and the handler hands any `f` to the service
untouched once pagination validates. -/
theorem service_accepts_any_type (st : Store) (t : String) (now k m : Nat)
    (f oRaw lRaw : String) :
    ((∀ e ∈ st.rows, ¬ activeOfType t e) →
      (EventService.Start st t now).1.type = t ∧
      (EventService.Start st t now).2.rows
        = st.rows ++ [(EventService.Start st t now).1]) ∧
    (f ≠ "" → ∀ e ∈ EventService.List st k m f, e.type = f) ∧
    ((∀ e ∈ st.rows, e.type ≠ f) → f ≠ "" → EventService.List st k m f = []) ∧
    (∀ o l : Int, validatePagination oRaw lRaw = some (o, l) →
      EventHandler.List st oRaw lRaw f
        = some (EventService.List st o.toNat l.toNat f)) := by
  refine ⟨?_, ?_, ?_, ?_⟩
  · intro hnone
    rw [start_of_no_active hnone]
    exact ⟨rfl, rfl⟩
  · intro hf e he
    have hsub := repoList_sublist_sorted st.rows k m f
    have he2 := (List.mem_insertionSort startedGE).mp (hsub.subset he)
    rw [if_neg hf] at he2
    exact of_decide_eq_true (List.mem_filter.mp he2).2
  · intro hmiss hf
    have hnil : st.rows.filter (fun e => decide (e.type = f)) = [] := by
      rw [List.filter_eq_nil_iff]
      intro a ha hdec
      exact hmiss a ha (of_decide_eq_true hdec)
    show EventRepository.List st.rows k m f = []
    unfold EventRepository.List
    rw [if_neg hf, hnil]
    show (if m > 0 then List.take m _ else _) = []
    by_cases hk : k > 0 <;> by_cases hm : m > 0 <;>
      simp [hk, hm, List.insertionSort]
  · intro o l hval
    unfold EventHandler.List
    rw [hval]

/-- C10 witness: `Start` stores the ill-formed type `"Bad Type!"` verbatim,
an unmatched ill-formed filter yields `[]`, and the handler passes the
filter through when pagination is valid. -/
theorem service_accepts_any_type_witness :
    (EventService.Start sampleStore "Bad Type!" 7).1.type = "Bad Type!" ∧
    EventService.List sampleStore 0 0 "no such-type" = [] ∧
    EventHandler.List sampleStore "" "" "no such-type"
      = some (EventService.List sampleStore 0 0 "no such-type") := by
  have h := service_accepts_any_type sampleStore "Bad Type!" 7 0 0 "no such-type" "" ""
  refine ⟨(h.1 (by decide)).1, h.2.2.1 (by decide) (by decide), ?_⟩
  have h4 := h.2.2.2 0 0 (by decide)
  exact h4

/-! ### Validation lemmas -/

theorem string_ne_empty_iff {s : String} : s ≠ "" ↔ s.data ≠ [] := by
  constructor
  · intro h hd
    exact h (String.ext hd)
  · intro h hs
    subst hs
    exact h rfl

/-- C6: `validateEventType` accepts exactly the non-empty strings made of
lowercase ASCII letters and ASCII digits (the pattern `^[a-z0-9]+$`), both
`Start` and `Finish` handlers reject any failing type with a bad request
before the Lifecycle Service is touched (the store comes back unchanged),
and `"meeting123"` is accepted while uppercase, punctuation, whitespace and
the empty string are rejected. -/
theorem validate_type_contract (s : String) (st : Store) (t : String) (now : Nat) :
    (validateEventType s = true ↔
      s ≠ "" ∧ ∀ c ∈ s.data,
        (Char.ofNat 97 ≤ c ∧ c ≤ Char.ofNat 122) ∨
        (Char.ofNat 48 ≤ c ∧ c ≤ Char.ofNat 57)) ∧
    (validateEventType t = false →
      EventHandler.Start st t now = (HandlerOutcome.badRequest, st) ∧
      EventHandler.Finish st t now = (HandlerOutcome.badRequest, st)) ∧
    validateEventType "meeting123" = true ∧
    validateEventType "Meeting" = false ∧
    validateEventType "meeting-1" = false ∧
    validateEventType "meeting 1" = false ∧
    validateEventType "" = false := by
  refine ⟨?_, ?_, by decide, by decide, by decide, by decide, by decide⟩
  · unfold validateEventType typeChar
    rw [Bool.and_eq_true, Bool.not_eq_true', List.all_eq_true, string_ne_empty_iff]
    constructor
    · rintro ⟨h1, h2⟩
      refine ⟨?_, ?_⟩
      · intro hd
        rw [hd] at h1
        cases h1
      · intro c hc
        have h3 := h2 c hc
        simp only [Bool.or_eq_true, Bool.and_eq_true, decide_eq_true_eq] at h3
        exact h3
    · rintro ⟨h1, h2⟩
      refine ⟨?_, ?_⟩
      · cases hd : s.data with
        | nil => exact absurd hd h1
        | cons c cs => rfl
      · intro c hc
        simp only [Bool.or_eq_true, Bool.and_eq_true, decide_eq_true_eq]
        exact h2 c hc
  · intro hv
    have hcond : ¬ (validateEventType t = true) := by
      rw [hv]
      exact Bool.false_ne_true
    constructor
    · unfold EventHandler.Start
      rw [if_neg hcond]
    · unfold EventHandler.Finish
      rw [if_neg hcond]

/-- C6 witness: the handlers reject `"Meeting"` with a bad request, the
store untouched, and `"meeting123"` passes validation. -/
theorem validate_type_contract_witness :
    EventHandler.Start sampleStore "Meeting" 7 = (HandlerOutcome.badRequest, sampleStore) ∧
    EventHandler.Finish sampleStore "Meeting" 7 = (HandlerOutcome.badRequest, sampleStore) ∧
    validateEventType "meeting123" = true := by
  have h := validate_type_contract "x" sampleStore "Meeting" 7
  have hb := h.2.1 (by decide)
  exact ⟨hb.1, hb.2, h.2.2.1⟩

theorem validateOffsetParam_eq_some {oRaw : String} {o : Int} :
    validateOffsetParam oRaw = some o ↔
      (oRaw = "" ∧ o = 0) ∨ (goAtoi oRaw = some o ∧ 0 ≤ o) := by
  by_cases ho : oRaw = ""
  · subst ho
    rw [validateOffsetParam, if_pos rfl]
    constructor
    · intro h
      exact Or.inl ⟨rfl, (Option.some.inj h).symm⟩
    · rintro (⟨-, rfl⟩ | ⟨h1, -⟩)
      · rfl
      · rw [show goAtoi "" = none from rfl] at h1
        cases h1
  · rw [validateOffsetParam, if_neg ho]
    cases hat : goAtoi oRaw with
    | none =>
      show (none : Option Int) = some o ↔
        (oRaw = "" ∧ o = 0) ∨ ((none : Option Int) = some o ∧ 0 ≤ o)
      constructor
      · intro h
        cases h
      · rintro (⟨ho2, -⟩ | ⟨h1, -⟩)
        · exact absurd ho2 ho
        · cases h1
    | some v =>
      show (if v < 0 then none else some v) = some o ↔
        (oRaw = "" ∧ o = 0) ∨ (some v = some o ∧ 0 ≤ o)
      by_cases hneg : v < 0
      · rw [if_pos hneg]
        constructor
        · intro h
          cases h
        · rintro (⟨ho2, -⟩ | ⟨h1, hge⟩)
          · exact absurd ho2 ho
          · have hv := Option.some.inj h1
            subst hv
            omega
      · rw [if_neg hneg]
        constructor
        · intro h
          have hv := Option.some.inj h
          subst hv
          exact Or.inr ⟨rfl, by omega⟩
        · rintro (⟨ho2, -⟩ | ⟨h1, -⟩)
          · exact absurd ho2 ho
          · exact h1

theorem validateLimitParam_eq_some {lRaw : String} {l : Int} :
    validateLimitParam lRaw = some l ↔
      (lRaw = "" ∧ l = 0) ∨ (goAtoi lRaw = some l ∧ 0 ≤ l ∧ l ≤ 100) := by
  by_cases hl : lRaw = ""
  · subst hl
    rw [validateLimitParam, if_pos rfl]
    constructor
    · intro h
      exact Or.inl ⟨rfl, (Option.some.inj h).symm⟩
    · rintro (⟨-, rfl⟩ | ⟨h1, -⟩)
      · rfl
      · rw [show goAtoi "" = none from rfl] at h1
        cases h1
  · rw [validateLimitParam, if_neg hl]
    cases hat : goAtoi lRaw with
    | none =>
      show (none : Option Int) = some l ↔
        (lRaw = "" ∧ l = 0) ∨ ((none : Option Int) = some l ∧ 0 ≤ l ∧ l ≤ 100)
      constructor
      · intro h
        cases h
      · rintro (⟨hl2, -⟩ | ⟨h1, -⟩)
        · exact absurd hl2 hl
        · cases h1
    | some v =>
      show (if v < 0 ∨ 100 < v then none else some v) = some l ↔
        (lRaw = "" ∧ l = 0) ∨ (some v = some l ∧ 0 ≤ l ∧ l ≤ 100)
      by_cases hrange : v < 0 ∨ 100 < v
      · rw [if_pos hrange]
        constructor
        · intro h
          cases h
        · rintro (⟨hl2, -⟩ | ⟨h1, hge, hle⟩)
          · exact absurd hl2 hl
          · have hv := Option.some.inj h1
            subst hv
            rcases hrange with hr | hr <;> omega
      · rw [if_neg hrange]
        push_neg at hrange
        constructor
        · intro h
          have hv := Option.some.inj h
          subst hv
          exact Or.inr ⟨rfl, hrange.1, hrange.2⟩
        · rintro (⟨hl2, -⟩ | ⟨h1, -⟩)
          · exact absurd hl2 hl
          · exact h1

theorem validatePagination_eq_some {oRaw lRaw : String} {o l : Int} :
    validatePagination oRaw lRaw = some (o, l) ↔
      validateOffsetParam oRaw = some o ∧ validateLimitParam lRaw = some l := by
  unfold validatePagination
  cases h1 : validateOffsetParam oRaw with
  | none =>
    constructor
    · intro h
      cases h
    · rintro ⟨h2, -⟩
      cases h2
  | some a =>
    cases h2 : validateLimitParam lRaw with
    | none =>
      constructor
      · intro h
        cases h
      · rintro ⟨-, h3⟩
        cases h3
    | some b =>
      constructor
      · intro h
        have h3 := Option.some.inj h
        have ha : a = o := congrArg Prod.fst h3
        have hb : b = l := congrArg Prod.snd h3
        subst ha
        subst hb
        exact ⟨rfl, rfl⟩
      · rintro ⟨h3, h4⟩
        rw [Option.some.inj h3, Option.some.inj h4]

/-- C7: pagination validation of the list handler. Absent parameters (empty
query strings) default to `(0, 0)`; the validation succeeds with `(o, l)`
exactly when a present `offset` `Atoi`-parses to the non-negative `o` and a
present `limit` `Atoi`-parses to `l ∈ [0, 100]`; and on any failure
(non-integer text, negative offset, negative limit or limit above 100 —
nothing is clamped) the handler answers 400 without invoking the list
operation (`EventHandler.List` returns `none` and never calls
`EventService.List`). -/
theorem pagination_contract (oRaw lRaw : String) (st : Store) (f : String) :
    validatePagination "" "" = some (0, 0) ∧
    (∀ o l : Int, validatePagination oRaw lRaw = some (o, l) ↔
      ((oRaw = "" ∧ o = 0) ∨ (goAtoi oRaw = some o ∧ 0 ≤ o)) ∧
      ((lRaw = "" ∧ l = 0) ∨ (goAtoi lRaw = some l ∧ 0 ≤ l ∧ l ≤ 100))) ∧
    (validatePagination oRaw lRaw = none →
      EventHandler.List st oRaw lRaw f = none) := by
  refine ⟨by decide, ?_, ?_⟩
  · intro o l
    rw [validatePagination_eq_some, validateOffsetParam_eq_some,
      validateLimitParam_eq_some]
  · intro h
    unfold EventHandler.List
    rw [h]

/-- C7 witness: empty parameters validate to `(0, 0)`; `limit = "200"` is
out of range, is not clamped, and makes the handler answer 400 without
listing; the valid pair `("3", "10")` parses to `(3, 10)`. -/
theorem pagination_contract_witness :
    validatePagination "" "" = some (0, 0) ∧
    validatePagination "3" "200" = none ∧
    EventHandler.List sampleStore "3" "200" "" = none ∧
    validatePagination "3" "10" = some (3, 10) := by
  have h := pagination_contract "3" "200" sampleStore ""
  have hn : validatePagination "3" "200" = none := by decide
  have h2 := (pagination_contract "3" "10" sampleStore "").2.1 3 10
  exact ⟨h.1, hn, h.2.2 hn, h2.mpr ⟨Or.inr ⟨by decide, by decide⟩,
    Or.inr ⟨by decide, by decide, by decide⟩⟩⟩
